import Mathlib

/-!
Verification development for the ClonarCanal-Telegram repository.

The Python sources under `src/lib/` are embedded shallowly: pure helper
functions become Lean functions on `String`/`List Char`/`Nat`, and the
per-item transfer / retry / download loops become explicit recursions that
emit an event trace.

Python floats appear only as byte counts divided by powers of two
(`size / 1024`, `size / (1024 * 1024)`) and then printed with `:.1f`.
Every such value is a dyadic rational that IEEE doubles represent exactly,
so the embedding models them with the exact representation `num / 2 ^ exp`
over `Nat` (`Dyadic` below) and renders `:.1f` with round-half-to-even,
which is the rounding Python applies to these exactly-represented values.
-/

namespace TLClone

/-- Character-list version of Python `sub.startswith`, used by `pyIn`. -/
def startsWithL : List Char → List Char → Bool
  | [], _ => true
  | _ :: _, [] => false
  | a :: as, b :: bs => a = b && startsWithL as bs

/-- Helper for `pyIn`: does `sub` occur inside the second list? -/
def pyInAux (sub : List Char) : List Char → Bool
  | [] => sub.isEmpty
  | c :: rest => startsWithL sub (c :: rest) || pyInAux sub rest

/-- Python `sub in s` substring test on strings. -/
def pyIn (sub s : String) : Bool :=
  pyInAux sub.toList s.toList

/-- Python `s.lower()` (ASCII case folding, which covers the inputs used). -/
def pyLower (s : String) : String :=
  String.mk (s.toList.map Char.toLower)

/-- Python `str.isspace` on the ASCII whitespace characters. -/
def pyIsSpace (c : Char) : Bool :=
  c = ' ' || c = '\t' || c = '\n' || c = '\x0d' || c = '\x0b' || c = '\x0c'

/-- Helper for Python `s.split()`: accumulates the current word (reversed). -/
def splitWsAux : List Char → List Char → List (List Char)
  | [], cur => if cur = [] then [] else [cur.reverse]
  | c :: rest, cur =>
    if pyIsSpace c then
      if cur = [] then splitWsAux rest [] else cur.reverse :: splitWsAux rest []
    else splitWsAux rest (c :: cur)

/-- Python `s.split()` with no argument: split on whitespace runs, no empties. -/
def pySplit (s : String) : List String :=
  (splitWsAux s.toList []).map String.mk

/-- Python `f"{n:02d}"` for a natural number. -/
def pad2 (n : Nat) : String :=
  if n < 10 then "0" ++ toString n else toString n

/-- A nonnegative dyadic rational `num / 2 ^ exp`: the exact value of every
Python float occurring in the embedded code. -/
structure Dyadic where
  num : Nat
  exp : Nat
deriving Repr, DecidableEq

/-- The dyadic value of a byte count. -/
def Dyadic.ofNat (n : Nat) : Dyadic := ⟨n, 0⟩

/-- Python `x / 1024` on an exactly represented float: `1024 = 2 ^ 10`. -/
def Dyadic.div1024 (d : Dyadic) : Dyadic := ⟨d.num, d.exp + 10⟩

/-- Python `x >= 1024` on an exactly represented float. -/
def Dyadic.ge1024 (d : Dyadic) : Bool := 1024 * 2 ^ d.exp ≤ d.num

/-- Python `f"{x:.1f}"` on an exactly represented nonnegative float:
one decimal digit, round half to even (IEEE rounding of the exact value). -/
def fmt1f (d : Dyadic) : String :=
  let t : Nat := d.num * 10
  let p : Nat := 2 ^ d.exp
  let fl : Nat := t / p
  let r : Nat := t % p
  let n : Nat :=
    if 2 * r < p then fl
    else if p < 2 * r then fl + 1
    else if fl % 2 = 0 then fl else fl + 1
  toString (n / 10) ++ "." ++ toString (n % 10)

/-! ### `media_handler.MediaHandler._format_size` -/

/-- The `size_names` unit table of `_format_size`. -/
def sizeNames : List String := ["B", "KB", "MB", "GB", "TB"]

/-- The `while size >= 1024 and i < len(size_names) - 1` loop of
`_format_size`, with fuel (the `i < 4` guard bounds it to 4 iterations). -/
def sizeLoop : Nat → Dyadic → Nat → Dyadic × Nat
  | 0, size, i => (size, i)
  | fuel + 1, size, i =>
    if size.ge1024 ∧ i < 4 then sizeLoop fuel size.div1024 (i + 1)
    else (size, i)

/-- Embeds `media_handler.MediaHandler._format_size`. -/
def formatSize (sizeBytes : Nat) : String :=
  if sizeBytes = 0 then "0 B"
  else
    let (size, i) := sizeLoop 5 (Dyadic.ofNat sizeBytes) 0
    fmt1f size ++ " " ++ (sizeNames.getD i "")

/-! ### `downloader._sanitize` -/

/-- The `keep` character set of `downloader._sanitize`. -/
def keepChars : List Char :=
  "-_.() abcdefghijklmnopqrstuvwxyzABCDEFGHIJKLMNOPQRSTUVWXYZ0123456789".toList

/-- Embeds `downloader._sanitize`.  `none` models Python `None`; `name or "chat"`
replaces `None` and the empty string by `"chat"`. -/
def sanitize (name : Option String) : String :=
  let base : String :=
    match name with
    | none => "chat"
    | some s => if s = "" then "chat" else s
  let cleaned : List Char :=
    base.toList.map fun c => if c ∈ keepChars then c else '_'
  let joined : List Char :=
    (List.intersperse ['_'] (splitWsAux cleaned [])).flatten
  String.mk (joined.take 120)

/-- The sanitizer described by the claim's words: every disallowed character
replaced by an underscore and every whitespace run collapsed to a single
underscore (then truncated to 120 characters).  Used only to compare the
claim with `sanitize`. -/
def claimSanitizeAux : Bool → List Char → List Char
  | _, [] => []
  | prevWs, c :: rest =>
    if pyIsSpace c then
      if prevWs then claimSanitizeAux true rest
      else '_' :: claimSanitizeAux true rest
    else (if c ∈ keepChars then c else '_') :: claimSanitizeAux false rest

/-- Claim-side sanitizer (see `claimSanitizeAux`). -/
def claimSanitize (name : Option String) : String :=
  let base : String :=
    match name with
    | none => "chat"
    | some s => if s = "" then "chat" else s
  String.mk ((claimSanitizeAux false base.toList).take 120)

/-- Split on runs of the space character only (the amended description of
`_sanitize`: after replacement the only whitespace left is the space). -/
def splitSpaceAux : List Char → List Char → List (List Char)
  | [], cur => if cur = [] then [] else [cur.reverse]
  | c :: rest, cur =>
    if c = ' ' then
      if cur = [] then splitSpaceAux rest [] else cur.reverse :: splitSpaceAux rest []
    else splitSpaceAux rest (c :: cur)

/-- The amended description of `_sanitize`: every character outside the
keep-set (including each non-space whitespace character individually) is
replaced by an underscore, then runs of spaces are collapsed to single
underscores with leading/trailing spaces dropped, then the result is
truncated to 120 characters. -/
def amendedSanitize (name : Option String) : String :=
  let base : String :=
    match name with
    | none => "chat"
    | some s => if s = "" then "chat" else s
  let cleaned : List Char :=
    base.toList.map fun c => if c ∈ keepChars then c else '_'
  String.mk (((List.intersperse ['_'] (splitSpaceAux cleaned [])).flatten).take 120)

/-! ### `cloner.ChannelCloner` data model

A `Message` is an item of the source container as the cloner inspects it:
optional text (Python `message.text`, with `""` standing for both the empty
string and `None`, which the code treats identically via truthiness) and an
optional media payload.  The `Media` fields mirror exactly the dynamic
attribute probes the code performs (`hasattr(media, 'webpage')`,
`hasattr(media, 'photo')`, `hasattr(media, 'document')`,
`type(media).__name__`, document `mime_type` / `size` / `attributes`). -/

/-- Link-preview metadata (`media.webpage`); `getattr` defaults are `""`. -/
structure Webpage where
  title : String
  description : String
  url : String
deriving DecidableEq, Repr

/-- One element of `document.attributes`; only `duration` is probed. -/
structure DocAttr where
  duration : Option Nat
deriving DecidableEq, Repr

/-- The `media.document` payload with the attributes the code probes (`hasattr`). -/
structure Document where
  mimeType : Option String
  size : Option Nat
  attributes : List DocAttr
deriving DecidableEq, Repr

/-- A media payload with the attribute probes used by the cloner. -/
structure Media where
  typeName : String
  hasWebpageAttr : Bool
  webpage : Option Webpage
  hasPhoto : Bool
  document : Option Document
deriving DecidableEq, Repr

/-- A content item: text and/or media (`_collect_messages` drops items with
neither, so both-empty messages simply never reach the loops). -/
structure Message where
  text : String
  media : Option Media
deriving DecidableEq, Repr

/-- Embeds `cloner.ChannelCloner._get_media_description`. -/
def getMediaDescription (m : Message) : String :=
  match m.media with
  | none => "Conteúdo desconhecido"
  | some md =>
    if md.hasPhoto then "Foto"
    else
      match md.document with
      | some doc =>
        match doc.mimeType with
        | some mime =>
          if pyIn "video" mime then "Vídeo"
          else if pyIn "audio" mime then "Áudio"
          else if pyIn "image" mime then "Imagem"
          else "Documento (" ++ mime ++ ")"
        | none => "Documento"
      | none =>
        let tn := pyLower md.typeName
        if pyIn "sticker" tn then "Sticker"
        else if pyIn "voice" tn then "Mensagem de voz"
        else if pyIn "video" tn then "Vídeo"
        else "Mídia (" ++ md.typeName ++ ")"

/-- Embeds `cloner.ChannelCloner._format_webpage_message` (also duplicated as
`media_handler.MediaHandler.format_webpage_message`): original text plus the
title / description / url lines of the link preview. -/
def formatWebpageMessage (m : Message) : String :=
  match m.media with
  | some md =>
    match md.webpage with
    | some w =>
      if md.hasWebpageAttr then
        if w.title ≠ "" ∨ w.description ≠ "" ∨ w.url ≠ "" then
          m.text ++ "\n\n🔗 Link:"
            ++ (if w.title ≠ "" then "\n📄 " ++ w.title else "")
            ++ (if w.description ≠ "" then "\n📋 " ++ w.description else "")
            ++ (if w.url ≠ "" then "\n🌐 " ++ w.url else "")
        else m.text
      else m.text
    | none => m.text
  | none => m.text

/-- The text built by `cloner.ChannelCloner._send_media_as_text`. -/
def mediaAsTextDescr (md : Media) (text : String) : String :=
  let mediaType :=
    if md.hasPhoto then "📸 Foto"
    else
      match md.document with
      | some doc =>
        match doc.mimeType with
        | some mime =>
          if pyIn "video" mime then "🎥 Vídeo"
          else if pyIn "audio" mime then "🎵 Áudio"
          else "📄 Documento"
        | none => "Mídia"
      | none => "Mídia"
  if text ≠ "" then mediaType ++ "\n\n" ++ text else mediaType

/-- The `for attr in doc.attributes` duration lines of
`_send_protected_media_description` (one line per attribute that has a
`duration`; the loop has no break). -/
def durationLines (attrs : List DocAttr) : String :=
  attrs.foldl
    (fun acc a =>
      match a.duration with
      | some d => acc ++ "\n⏱️ Duração: " ++ toString (d / 60) ++ ":" ++ pad2 (d % 60)
      | none => acc)
    ""

/-- The description built by
`cloner.ChannelCloner._send_protected_media_description`:
type line, duration lines for a video, size in MB (`doc.size / (1024*1024)`
printed `:.1f`, hence `Dyadic` exponent 20), and the original caption. -/
def protectedMediaDescr (md : Media) (text : String) : String :=
  let d1 := "🔒 CONTEÚDO PROTEGIDO (não é possível baixar)\n"
  let d2 :=
    if md.hasPhoto then d1 ++ "📸 Tipo: Imagem/Foto"
    else
      match md.document with
      | some doc =>
        let d3 :=
          match doc.mimeType with
          | some mime =>
            if pyIn "video" mime then d1 ++ "🎥 Tipo: Vídeo" ++ durationLines doc.attributes
            else if pyIn "audio" mime then d1 ++ "🎵 Tipo: Áudio"
            else d1 ++ "📄 Tipo: Documento"
          | none => d1
        match doc.size with
        | some sz => d3 ++ "\n📊 Tamanho: " ++ fmt1f ⟨sz, 20⟩ ++ " MB"
        | none => d3
      | none => d1
  if text ≠ "" then d2 ++ "\n\n💬 Legenda/Texto:\n" ++ text else d2

/-! ### Transfer strategies and event traces -/

/-- An observable action of the per-item transfer code: a destination send
(`send_message` with its exact content, or `send_file` with its caption), a
media download attempt (`message.download_media()`), a checkpoint save
(`json.dump` of `messages_processed`), or the anti-rate-limit pause. -/
inductive Ev where
  | sendMsg (content : String)
  | sendFile (caption : String)
  | download
  | save (processed : Nat)
  | throttle
deriving DecidableEq, Repr

/-- The per-item result dictionary
`{'sent': ..., 'media_downloaded': ..., 'media_skipped': ...}`. -/
structure SendOutcome where
  sent : Bool := false
  mediaDownloaded : Bool := false
  mediaSkipped : Bool := false
deriving DecidableEq, Repr

/-- Embeds `cloner.ChannelCloner._send_single_message` under normal (exception-free)
execution, returning the result dictionary and the trace of sends. -/
def sendSingleMessage (m : Message) (isProtected : Bool) : SendOutcome × List Ev :=
  match m.media with
  | some md =>
    if isProtected = false then
      if md.hasWebpageAttr then
        ({ sent := true }, [.sendMsg (formatWebpageMessage m)])
      else
        ({ sent := true }, [.sendFile m.text])
    else
      if md.hasWebpageAttr then
        ({ sent := true }, [.sendMsg (formatWebpageMessage m)])
      else
        ({ sent := true, mediaSkipped := true },
          [.sendMsg (m.text ++ "\n\n[📎 Mídia protegida: " ++ getMediaDescription m ++ "]")])
  | none =>
    if m.text ≠ "" then ({ sent := true }, [.sendMsg m.text]) else ({}, [])

/-- Embeds `cloner.ChannelCloner._send_message_with_media_download` under normal
execution.  `dlResult` is what `message.download_media()` returns when the
unprotected branch calls it (`none` models Python `None`). -/
def sendMessageWithMediaDownload (m : Message) (isProtected dlFlag : Bool)
    (dlResult : Option String) : SendOutcome × List Ev :=
  match m.media with
  | some md =>
    if dlFlag then
      if isProtected = false then
        match dlResult with
        | some _ =>
          ({ sent := true, mediaDownloaded := true }, [.download, .sendFile m.text])
        | none =>
          ({ sent := true, mediaSkipped := true },
            [.download, .sendMsg (mediaAsTextDescr md m.text)])
      else
        ({ sent := true, mediaSkipped := true },
          [.sendMsg (protectedMediaDescr md m.text)])
    else
      if m.text ≠ "" then ({ sent := true }, [.sendMsg m.text]) else ({}, [])
  | none =>
    if m.text ≠ "" then ({ sent := true }, [.sendMsg m.text]) else ({}, [])

/-- Embeds `cloner.ChannelCloner._check_content_protection`.  `none` models the
query raising, `some none` a reply without a `noforwards` attribute, and
`some (some b)` a reply whose `noforwards` flag is `b`. -/
def checkContentProtection (queryRes : Option (Option Bool)) : Bool :=
  match queryRes with
  | none => false
  | some none => false
  | some (some b) => b

/-! ### The `_copy_messages_complete` loop and `clone_channel_complete` -/

/-- Aggregates of the `_copy_messages_complete` loop: the index-tagged event
trace and the `copied_count` / `downloaded_media` / `skipped_media`
counters. -/
structure LoopOut where
  events : List (Nat × Ev)
  copied : Nat
  downloaded : Nat
  skippedMedia : Nat
deriving Repr

/-- The `for i, message in enumerate(messages[start_index:], start_index)`
loop of `_copy_messages_complete`.  Each list element pairs a message with
its `download_media()` result; `i` is the enumeration index, `copied` the
running `copied_count` (initialised by the caller to `start_index`).
Checkpoint saves (`copied_count % 10 == 0`, value `i + 1`) and the
five-item throttle pause are emitted as events tagged with `i`. -/
def processLoop (isProtected dlFlag ckFile : Bool) :
    List (Message × Option String) → Nat → Nat → Nat → Nat → LoopOut
  | [], _, copied, dl, sk => ⟨[], copied, dl, sk⟩
  | x :: rest, i, copied, dl, sk =>
    let step := sendMessageWithMediaDownload x.1 isProtected dlFlag x.2
    let res := step.1
    let copied' := if res.sent then copied + 1 else copied
    let dl' := if res.sent && res.mediaDownloaded then dl + 1 else dl
    let sk' := if res.sent && !res.mediaDownloaded && res.mediaSkipped then sk + 1 else sk
    let saveEvs : List (Nat × Ev) :=
      if ckFile ∧ copied' % 10 = 0 then [(i, .save (i + 1))] else []
    let throttleEvs : List (Nat × Ev) :=
      if copied' % 5 = 0 then [(i, .throttle)] else []
    let restOut := processLoop isProtected dlFlag ckFile rest (i + 1) copied' dl' sk'
    ⟨step.2.map (fun e => (i, e)) ++ saveEvs ++ throttleEvs ++ restOut.events,
      restOut.copied, restOut.downloaded, restOut.skippedMedia⟩

/-- Migration-level observable actions: the single protection query, the
index-tagged per-item events, and the checkpoint-file deletion. -/
inductive CEv where
  | protQuery
  | item (i : Nat) (e : Ev)
  | delete
deriving DecidableEq, Repr

/-- The checkpoint file content (its `messages_processed` field) after a
list of loop events: each `save` overwrites the file. -/
def applySaves (init : Option Nat) : List (Nat × Ev) → Option Nat
  | [] => init
  | (_, Ev.save v) :: rest => applySaves (some v) rest
  | _ :: rest => applySaves init rest

/-- Result of a complete migration: the event trace, the final checkpoint
file content (`none` = absent), and whether a channel was returned. -/
structure CloneOut where
  events : List CEv
  ckptFile : Option Nat
  success : Bool
deriving Repr

/-- Embeds `cloner.ChannelCloner.clone_channel_complete` restricted to its
checkpoint / protection / transfer-loop behaviour (channel provisioning and
photo copying have no bearing on the claims and are omitted).

* `fileCkpt` — the `messages_processed` value of a pre-existing checkpoint
  file (`none` = no file);
* `loadedOk` — the user accepted the resume prompt and the JSON parsed;
* `queryRes` — the `GetFullChannelRequest` reply used by the protection
  check (see `checkContentProtection`);
* `deleteOk` — whether `os.remove(checkpoint_file)` succeeds (its failure
  is swallowed by `except: pass`). -/
def cloneChannelComplete (msgs : List (Message × Option String))
    (resumeEnabled : Bool) (fileCkpt : Option Nat) (loadedOk : Bool)
    (queryRes : Option (Option Bool)) (dlFlag deleteOk : Bool) : CloneOut :=
  let startIdx : Nat := if resumeEnabled ∧ loadedOk then fileCkpt.getD 0 else 0
  let isProtected := checkContentProtection queryRes
  let lo := processLoop isProtected dlFlag resumeEnabled
    (msgs.drop startIdx) startIdx startIdx 0 0
  let fileAfter := applySaves fileCkpt lo.events
  let doDelete := resumeEnabled ∧ fileAfter.isSome
  ⟨CEv.protQuery :: lo.events.map (fun p => CEv.item p.1 p.2)
      ++ (if doDelete then [CEv.delete] else []),
    if doDelete ∧ deleteOk then none else fileAfter,
    true⟩

/-! ### `_find_related_channels` / `_is_channel_related` -/

/-- A broadcast-candidate dialog as probed by `_find_related_channels`:
its display name, the `entity.broadcast` flag, and whether
`_is_channel_linked_to_group` answers true for it. -/
structure Cand where
  name : String
  broadcast : Bool
  linked : Bool
deriving DecidableEq, Repr

/-- Embeds `cloner.ChannelCloner._is_channel_related`: at least one of the base
words occurs as a substring (`word in channel_name_lower`) of the lowercased
candidate name. -/
def isChannelRelated (channelName : String) (baseWords : List String) : Bool :=
  1 ≤ (baseWords.countP fun w => pyIn w (pyLower channelName))

/-- The `for dialog in dialogs` classification loop of
`_find_related_channels` (`if broadcast`, then name match `elif` link). -/
def findRelatedAux (baseWords : List String) : List Cand → List Cand
  | [] => []
  | c :: rest =>
    if c.broadcast then
      if isChannelRelated c.name baseWords then c :: findRelatedAux baseWords rest
      else if c.linked then c :: findRelatedAux baseWords rest
      else findRelatedAux baseWords rest
    else findRelatedAux baseWords rest

/-- Embeds `cloner.ChannelCloner._find_related_channels`
(`base_words = base_name.lower().split()`). -/
def findRelatedChannels (dialogs : List Cand) (baseName : String) : List Cand :=
  findRelatedAux (pySplit (pyLower baseName)) dialogs

/-- The whitespace-delimited lowercased tokens of a name. -/
def nameTokens (s : String) : List String := pySplit (pyLower s)

/-- The claim's relatedness test: the two names share a whitespace-delimited
case-insensitive token.  Used only to compare the claim with the code. -/
def sharesToken (candName primaryName : String) : Bool :=
  (nameTokens candName).any fun t => (nameTokens primaryName).contains t

/-- The amended relatedness test: linked, or some token of the primary's
name occurs as a substring of the lowercased candidate name. -/
def amendedRelated (c : Cand) (primaryName : String) : Bool :=
  c.linked || (nameTokens primaryName).any fun t => pyIn t (pyLower c.name)

/-! ### `media_handler` retry loops -/

/-- What one download attempt of `_download_media_with_retry` runs into:
success (file returned, integrity check passed), `download_media` returning
`None`, a corrupted file (integrity check fails), `FloodWaitError` with its
server-specified seconds, `FileReferenceExpiredError`, `asyncio.TimeoutError`,
or a generic exception. -/
inductive DlOutcome where
  | ok
  | noneFile
  | corrupt
  | floodWait (seconds : Nat)
  | fileRefExpired
  | timeout
  | genericError
deriving DecidableEq, Repr

/-- Result of a retry loop: whether it succeeded, the sleeps it performed
(attempt index paired with duration), and how many attempts it consumed. -/
structure RetryOut where
  ok : Bool
  sleeps : List (Nat × Nat)
  attemptsUsed : Nat
deriving DecidableEq, Repr

/-- The `for attempt in range(self.config.max_retries)` body of
`_download_media_with_retry`: `oracle a` is what attempt `a` runs into.
`FloodWaitError` sleeps the server-specified seconds and `continue`s;
`FileReferenceExpiredError` sleeps `retry_delay` and `continue`s; a corrupt
file `continue`s with no sleep; `None` results, timeouts and generic errors
fall through to the bottom `if attempt < max_retries - 1` sleep.  Every
`continue` moves to the next value of `attempt`. -/
def dlAux (oracle : Nat → DlOutcome) (maxRetries retryDelay : Nat) :
    Nat → Nat → RetryOut
  | 0, _ => ⟨false, [], 0⟩
  | rem + 1, a =>
    match oracle a with
    | .ok => ⟨true, [], 1⟩
    | .floodWait w =>
      let r := dlAux oracle maxRetries retryDelay rem (a + 1)
      ⟨r.ok, (a, w) :: r.sleeps, r.attemptsUsed + 1⟩
    | .fileRefExpired =>
      let r := dlAux oracle maxRetries retryDelay rem (a + 1)
      ⟨r.ok, (a, retryDelay) :: r.sleeps, r.attemptsUsed + 1⟩
    | .corrupt =>
      let r := dlAux oracle maxRetries retryDelay rem (a + 1)
      ⟨r.ok, r.sleeps, r.attemptsUsed + 1⟩
    | .noneFile =>
      let r := dlAux oracle maxRetries retryDelay rem (a + 1)
      ⟨r.ok, (if a < maxRetries - 1 then [(a, retryDelay)] else []) ++ r.sleeps,
        r.attemptsUsed + 1⟩
    | .timeout =>
      let r := dlAux oracle maxRetries retryDelay rem (a + 1)
      ⟨r.ok, (if a < maxRetries - 1 then [(a, retryDelay)] else []) ++ r.sleeps,
        r.attemptsUsed + 1⟩
    | .genericError =>
      let r := dlAux oracle maxRetries retryDelay rem (a + 1)
      ⟨r.ok, (if a < maxRetries - 1 then [(a, retryDelay)] else []) ++ r.sleeps,
        r.attemptsUsed + 1⟩

/-- Embeds `media_handler.MediaHandler._download_media_with_retry`. -/
def downloadMediaWithRetry (oracle : Nat → DlOutcome)
    (maxRetries retryDelay : Nat) : RetryOut :=
  dlAux oracle maxRetries retryDelay maxRetries 0

/-- What one upload attempt of `_upload_media_with_retry` runs into. -/
inductive UpOutcome where
  | ok
  | floodWait (seconds : Nat)
  | genericError
deriving DecidableEq, Repr

/-- The `for attempt in range(self.config.max_retries)` body of
`_upload_media_with_retry`.  `rateLimitDelay` is
`config.rate_limit_delay` when `config.enable_rate_limit` is set (slept
after a successful send), else `none`. -/
def upAux (oracle : Nat → UpOutcome) (maxRetries retryDelay : Nat)
    (rateLimitDelay : Option Nat) : Nat → Nat → RetryOut
  | 0, _ => ⟨false, [], 0⟩
  | rem + 1, a =>
    match oracle a with
    | .ok =>
      ⟨true, (match rateLimitDelay with | some d => [(a, d)] | none => []), 1⟩
    | .floodWait w =>
      let r := upAux oracle maxRetries retryDelay rateLimitDelay rem (a + 1)
      ⟨r.ok, (a, w) :: r.sleeps, r.attemptsUsed + 1⟩
    | .genericError =>
      let r := upAux oracle maxRetries retryDelay rateLimitDelay rem (a + 1)
      ⟨r.ok, (if a < maxRetries - 1 then [(a, retryDelay)] else []) ++ r.sleeps,
        r.attemptsUsed + 1⟩

/-- Embeds `media_handler.MediaHandler._upload_media_with_retry`. -/
def uploadMediaWithRetry (oracle : Nat → UpOutcome)
    (maxRetries retryDelay : Nat) (rateLimitDelay : Option Nat) : RetryOut :=
  upAux oracle maxRetries retryDelay rateLimitDelay maxRetries 0

/-! ### `downloader.MediaDownloader.download_dialog_media` -/

/-- A message as probed by the bulk downloader: its id and the attribute
probes `msg.media`, `msg.photo`, `msg.video`, and a document whose
`mime_type` starts with `"video/"`. -/
structure DMsg where
  id : Nat
  hasMedia : Bool
  isPhoto : Bool
  isVideoAttr : Bool
  docMimeVideo : Bool
deriving DecidableEq, Repr

/-- Result of `client.download_media` for one message: a path, `None`
(already exists / no data), or an exception. -/
inductive DlRes where
  | path
  | nonePath
  | err
deriving DecidableEq, Repr

/-- The `is_video` classification of the downloader loop. -/
def msgIsVideo (m : DMsg) : Bool := m.isVideoAttr || m.docMimeVideo

/-- Running state of `download_dialog_media`: `last_id`,
`processed_since_save`, the values written by `_save_progress` in order,
and the `downloaded` / `skipped` / `errors` / `count_total` counters. -/
structure DlState where
  lastId : Nat
  sinceSave : Nat
  saves : List Nat
  downloaded : Nat
  skipped : Nat
  errors : Nat
  inspected : Nat
deriving DecidableEq, Repr

/-- The `last_id = max(last_id, msg.id); processed_since_save += 1;
if processed_since_save >= 50: save and reset` block, which the loop runs
in its no-media, post-download and error branches. -/
def bumpSave (st : DlState) (msgId : Nat) : DlState :=
  let last := max st.lastId msgId
  let since := st.sinceSave + 1
  if 50 ≤ since then
    { st with lastId := last, sinceSave := 0, saves := st.saves ++ [last] }
  else
    { st with lastId := last, sinceSave := since }

/-- The `async for msg in iter_messages(...)` body of
`download_dialog_media`.  Messages whose media type is filtered out (or is
neither image nor video) are `continue`d past with no state change. -/
def dlLoop (wantImages wantVideos : Bool) :
    List (DMsg × DlRes) → DlState → DlState
  | [], st => st
  | (m, res) :: rest, st =>
    if !m.hasMedia then
      dlLoop wantImages wantVideos rest (bumpSave st m.id)
    else
      let isImage := m.isPhoto
      let isVideo := msgIsVideo m
      if (isImage && !wantImages) || (isVideo && !wantVideos) then
        dlLoop wantImages wantVideos rest st
      else if !isImage && !isVideo then
        dlLoop wantImages wantVideos rest st
      else
        let st1 := { st with inspected := st.inspected + 1 }
        match res with
        | .path =>
          dlLoop wantImages wantVideos rest
            (bumpSave { st1 with downloaded := st1.downloaded + 1 } m.id)
        | .nonePath =>
          dlLoop wantImages wantVideos rest
            (bumpSave { st1 with skipped := st1.skipped + 1 } m.id)
        | .err =>
          dlLoop wantImages wantVideos rest
            (bumpSave { st1 with errors := st1.errors + 1 } m.id)

/-- Embeds `downloader.MediaDownloader.download_dialog_media` over the messages the
iterator yields, starting from the `last_id` read from `.progress.json`
(`0` on absence or parse failure), with the final `_save_progress` call. -/
def downloadDialogMedia (msgs : List (DMsg × DlRes))
    (wantImages wantVideos : Bool) (initLastId : Nat) : DlState :=
  let st := dlLoop wantImages wantVideos msgs ⟨initLastId, 0, [], 0, 0, 0, 0⟩
  { st with saves := st.saves ++ [st.lastId] }

/-- Embeds `downloader.MediaDownloader._save_progress` file content:
`json.dumps(\x7b"last_id": int(last_id)\x7d)`. -/
def jsonProgress (n : Nat) : String :=
  "\x7b\"last_id\": " ++ toString n ++ "\x7d"

/-- The claim's description of the stored id: the highest sequence number
among all inspected items (every message the iterator yielded).  Used only
to compare the claim with the code. -/
def claimHighestInspected (msgs : List (DMsg × DlRes)) (init : Nat) : Nat :=
  msgs.foldl (fun acc m => max acc m.1.id) init

/-- Does the downloader loop advance `last_id` and the save counter for this
message?  (Media-type-filtered messages advance neither.) -/
def countedMsg (wantImages wantVideos : Bool) (m : DMsg) : Bool :=
  if !m.hasMedia then true
  else
    let isImage := m.isPhoto
    let isVideo := msgIsVideo m
    if (isImage && !wantImages) || (isVideo && !wantVideos) then false
    else if !isImage && !isVideo then false
    else true

/-- The amended description of the stored id: the highest id among counted
(non-filtered) messages, never below the initial value. -/
def amendedHighest (wantImages wantVideos : Bool)
    (msgs : List (DMsg × DlRes)) (init : Nat) : Nat :=
  msgs.foldl
    (fun acc m => if countedMsg wantImages wantVideos m.1 then max acc m.1.id else acc)
    init

/-- The mid-run save points the amended claim describes: scanning the
message stream, each counted (non-filtered) message advances the running
id and a counter, and each time the counter reaches 50 a save of the
running id is emitted and the counter resets.  `lastId` is the running id,
`cnt` the messages accumulated since the last save. -/
def specSavesAux (wantImages wantVideos : Bool) :
    List (DMsg × DlRes) → Nat → Nat → List Nat
  | [], _, _ => []
  | (m, _) :: rest, lastId, cnt =>
    if countedMsg wantImages wantVideos m then
      if 50 ≤ cnt + 1 then
        max lastId m.id :: specSavesAux wantImages wantVideos rest (max lastId m.id) 0
      else specSavesAux wantImages wantVideos rest (max lastId m.id) (cnt + 1)
    else specSavesAux wantImages wantVideos rest lastId cnt

/-- All saves of a run as the amended claim describes them: a save each
time 50 processed messages have accumulated, and once more at the end of
the run with the overall highest processed id. -/
def specSaves (wantImages wantVideos : Bool)
    (msgs : List (DMsg × DlRes)) (init : Nat) : List Nat :=
  specSavesAux wantImages wantVideos msgs init 0
    ++ [amendedHighest wantImages wantVideos msgs init]

/-! ## Helper lemmas -/

theorem keep_space_only (c : Char) (hc : c ∈ keepChars) (hw : pyIsSpace c = true) :
    c = ' ' := by
  revert hw
  fin_cases hc <;> decide

theorem underscore_not_space : pyIsSpace '_' = false := by decide

theorem splitWs_eq_splitSpace (l : List Char) (cur : List Char)
    (h : ∀ c ∈ l, pyIsSpace c = true → c = ' ') :
    splitWsAux l cur = splitSpaceAux l cur := by
  induction l generalizing cur with
  | nil => rfl
  | cons c rest ih =>
    have hrest : ∀ x ∈ rest, pyIsSpace x = true → x = ' ' := by
      intro x hx; exact h x (List.mem_cons_of_mem _ hx)
    by_cases hs : pyIsSpace c = true
    · have hc : c = ' ' := h c (List.mem_cons_self _ _) hs
      subst hc
      simp only [splitWsAux, splitSpaceAux, hs, if_pos rfl, if_true]
      by_cases hcur : cur = [] <;> simp [hcur, ih _ hrest]
    · have hc : c ≠ ' ' := by
        intro hcc; subst hcc; exact hs (by decide)
      simp only [splitWsAux, splitSpaceAux]
      rw [if_neg (by simpa using hs), if_neg hc]
      exact ih _ hrest

theorem splitSpace_chars (P : Char → Prop) (l : List Char) (cur : List Char)
    (hcur : ∀ c ∈ cur, P c) (hl : ∀ c ∈ l, c ≠ ' ' → P c) :
    ∀ p ∈ splitSpaceAux l cur, ∀ c ∈ p, P c := by
  induction l generalizing cur with
  | nil =>
    intro p hp c hc
    simp only [splitSpaceAux] at hp
    by_cases hcurE : cur = []
    · simp [hcurE] at hp
    · rw [if_neg hcurE] at hp
      simp only [List.mem_singleton] at hp
      subst hp
      exact hcur c (List.mem_reverse.mp hc)
  | cons a rest ih =>
    intro p hp c hc
    have hrest : ∀ x ∈ rest, x ≠ ' ' → P x := by
      intro x hx; exact hl x (List.mem_cons_of_mem _ hx)
    simp only [splitSpaceAux] at hp
    by_cases ha : a = ' '
    · rw [if_pos ha] at hp
      by_cases hcurE : cur = []
      · rw [if_pos hcurE] at hp
        exact ih [] (by intro x hx; cases hx) hrest p hp c hc
      · rw [if_neg hcurE] at hp
        rcases List.mem_cons.mp hp with h1 | h2
        · subst h1; exact hcur c (List.mem_reverse.mp hc)
        · exact ih [] (by intro x hx; cases hx) hrest p h2 c hc
    · rw [if_neg ha] at hp
      refine ih (a :: cur) ?_ hrest p hp c hc
      intro x hx
      rcases List.mem_cons.mp hx with h1 | h2
      · exact h1 ▸ hl a (List.mem_cons_self _ _) ha
      · exact hcur x h2

theorem intersperse_flatten_chars (parts : List (List Char)) (c : Char)
    (hc : c ∈ (List.intersperse ['_'] parts).flatten) :
    c = '_' ∨ ∃ p ∈ parts, c ∈ p := by
  induction parts with
  | nil => simp [List.intersperse] at hc
  | cons p rest ih =>
    cases rest with
    | nil =>
      simp only [List.intersperse_singleton, List.flatten, List.append_nil] at hc
      exact Or.inr ⟨p, List.mem_cons_self _ _, hc⟩
    | cons q rest' =>
      simp only [List.intersperse_cons_cons, List.flatten, List.mem_append] at hc
      rcases hc with h1 | h3 | h4
      · exact Or.inr ⟨p, List.mem_cons_self _ _, h1⟩
      · left; simpa using h3
      · rcases ih h4 with h5 | ⟨p', hp', hcp'⟩
        · exact Or.inl h5
        · exact Or.inr ⟨p', List.mem_cons_of_mem _ hp', hcp'⟩

/-! ## C6 — byte-size formatting -/

/-- C6: `_format_size` renders byte counts with binary (1024-based) units
B/KB/MB/GB/TB at one decimal place; in particular `0 ↦ "0 B"`,
`1536 ↦ "1.5 KB"`, `1048576 ↦ "1.0 MB"`.  The remaining conjuncts exhibit
the other three units and the loop's cap at TB. -/
theorem formatSize_binary_units :
    formatSize 0 = "0 B" ∧
    formatSize 1536 = "1.5 KB" ∧
    formatSize 1048576 = "1.0 MB" ∧
    formatSize 1023 = "1023.0 B" ∧
    formatSize 1073741824 = "1.0 GB" ∧
    formatSize 1099511627776 = "1.0 TB" ∧
    formatSize 1125899906842624 = "1024.0 TB" := by
  refine ⟨by decide, by decide, by decide, by decide, by decide, by decide, by decide⟩

/-! ## C10 — folder-name sanitizer -/

/-- C10 counterexample: the claim says whitespace runs are collapsed to
single underscores, but each non-space whitespace character is replaced by
its own underscore: on `"a\t\tb"` the sanitizer yields `"a__b"` while the
claim's description yields `"a_b"`. -/
theorem sanitize_counterexample :
    sanitize (some "a\t\tb") = "a__b" ∧
    claimSanitize (some "a\t\tb") = "a_b" ∧
    sanitize (some "a\t\tb") ≠ claimSanitize (some "a\t\tb") ∧
    sanitize (some " a") = "a" ∧
    claimSanitize (some " a") = "_a" := by
  refine ⟨by decide, by decide, by decide, by decide, by decide⟩

theorem sanitize_eq_amended (name : Option String) :
    sanitize name = amendedSanitize name := by
  unfold sanitize amendedSanitize
  cases name with
  | none =>
    simp only
    rw [splitWs_eq_splitSpace]
    intro c hc hw
    rcases List.mem_map.mp hc with ⟨c₀, _, rfl⟩
    by_cases hk : c₀ ∈ keepChars
    · rw [if_pos hk] at hw ⊢
      exact keep_space_only c₀ hk hw
    · rw [if_neg hk] at hw
      exact absurd hw (by decide)
  | some s =>
    simp only
    rw [splitWs_eq_splitSpace]
    intro c hc hw
    rcases List.mem_map.mp hc with ⟨c₀, _, rfl⟩
    by_cases hk : c₀ ∈ keepChars
    · rw [if_pos hk] at hw ⊢
      exact keep_space_only c₀ hk hw
    · rw [if_neg hk] at hw
      exact absurd hw (by decide)

/-- C10 amended: for every input (with `None`/empty replaced by `"chat"`)
the sanitizer returns at most 120 characters, each of which is either a
non-space character of the keep-set or an underscore and in particular is
not whitespace; every disallowed character (each non-space whitespace
character individually included) becomes one underscore, while space runs
are collapsed to single underscores with leading/trailing spaces dropped —
i.e. `sanitize` agrees with `amendedSanitize`. -/
theorem sanitize_amended (name : Option String) :
    sanitize name = amendedSanitize name ∧
    sanitize none = "chat" ∧
    sanitize (some "") = "chat" ∧
    (sanitize name).length ≤ 120 ∧
    ∀ c ∈ (sanitize name).toList,
      ((c ∈ keepChars ∧ c ≠ ' ') ∨ c = '_') ∧ pyIsSpace c = false := by
  refine ⟨sanitize_eq_amended name, by decide, by decide, ?_, ?_⟩
  · show (String.mk _).length ≤ 120
    simp [String.length]
  · intro c hc
    have hmem : c ∈ (List.intersperse ['_']
        (splitWsAux ((match name with
          | none => "chat"
          | some s => if s = "" then "chat" else s).toList.map
            fun c => if c ∈ keepChars then c else '_') [])).flatten := by
      exact List.mem_of_mem_take hc
    rw [splitWs_eq_splitSpace] at hmem
    · have hbase : ((c ∈ keepChars ∧ c ≠ ' ') ∨ c = '_') := by
        rcases intersperse_flatten_chars _ c hmem with h1 | ⟨p, hp, hcp⟩
        · exact Or.inr h1
        · refine splitSpace_chars (fun x => (x ∈ keepChars ∧ x ≠ ' ') ∨ x = '_') _ []
            (by intro x hx; cases hx) ?_ p hp c hcp
          intro x hx hxs
          rcases List.mem_map.mp hx with ⟨x₀, _, rfl⟩
          by_cases hk : x₀ ∈ keepChars
          · rw [if_pos hk] at hxs ⊢
            exact Or.inl ⟨hk, hxs⟩
          · rw [if_neg hk]
            exact Or.inr rfl
      refine ⟨hbase, ?_⟩
      rcases hbase with ⟨hk, hs⟩ | h_
      · by_contra hw
        exact hs (keep_space_only c hk (by simpa using hw))
      · subst h_; decide
    · intro x hx hw
      rcases List.mem_map.mp hx with ⟨x₀, _, rfl⟩
      by_cases hk : x₀ ∈ keepChars
      · rw [if_pos hk] at hw ⊢
        exact keep_space_only x₀ hk hw
      · rw [if_neg hk] at hw
        exact absurd hw (by decide)

/-- Witness for the amended C10 theorem: the character `a` of
`sanitize (some "a b")` is an allowed non-space character. -/
theorem sanitize_amended_witness :
    (('a' ∈ keepChars ∧ 'a' ≠ ' ') ∨ 'a' = '_') ∧ pyIsSpace 'a' = false :=
  (sanitize_amended (some "a b")).2.2.2.2 'a' (by decide)

/-! ## C7 — related-channel classification -/

theorem isChannelRelated_eq_any (nm : String) (bw : List String) :
    isChannelRelated nm bw = bw.any fun w => pyIn w (pyLower nm) := by
  unfold isChannelRelated
  cases hA : bw.any fun w => pyIn w (pyLower nm) with
  | true =>
    rcases List.any_eq_true.mp hA with ⟨w, hw, hpw⟩
    have h2 : 0 < List.countP (fun w => pyIn w (pyLower nm)) bw :=
      List.countP_pos_iff.mpr ⟨w, hw, hpw⟩
    exact decide_eq_true h2
  | false =>
    apply decide_eq_false
    intro hge
    have h2 : 0 < List.countP (fun w => pyIn w (pyLower nm)) bw :=
      Nat.lt_of_lt_of_le Nat.zero_lt_one hge
    rcases List.countP_pos_iff.mp h2 with ⟨w, hw, hpw⟩
    have h3 : (bw.any fun w => pyIn w (pyLower nm)) = true :=
      List.any_eq_true.mpr ⟨w, hw, hpw⟩
    rw [hA] at h3
    cases h3

theorem findRelatedAux_eq_filter (bw : List String) (dialogs : List Cand) :
    findRelatedAux bw dialogs
      = dialogs.filter fun c =>
          c.broadcast && (c.linked || bw.any fun w => pyIn w (pyLower c.name)) := by
  induction dialogs with
  | nil => rfl
  | cons c rest ih =>
    simp only [findRelatedAux, List.filter, isChannelRelated_eq_any]
    cases hb : c.broadcast
    · simp [ih]
    · cases hr : bw.any fun w => pyIn w (pyLower c.name)
      · cases hl : c.linked
        · simp only [isChannelRelated_eq_any, hr, hl, Bool.false_or, Bool.and_false,
            if_neg, Bool.true_and]
          simpa using ih
        · simp only [isChannelRelated_eq_any, hr, hl, Bool.true_or, Bool.and_true,
            Bool.true_and]
          simpa using ih
      · simp only [isChannelRelated_eq_any, hr, Bool.or_true, Bool.and_true, Bool.true_and]
        simpa using ih

/-- C7 counterexample: the candidate `"Alphabetical"` is neither linked nor
does its name share any whitespace-delimited token with the primary name
`"Alpha"`, yet `_find_related_channels` classifies it as related (the code
tests `word in channel_name_lower`, a substring test, not token sharing). -/
theorem related_counterexample :
    findRelatedChannels [⟨"Alphabetical", true, false⟩] "Alpha"
      = [⟨"Alphabetical", true, false⟩] ∧
    sharesToken "Alphabetical" "Alpha" = false ∧
    (⟨"Alphabetical", true, false⟩ : Cand).linked = false := by
  refine ⟨by decide, by decide, by decide⟩

/-- C7 amended: a broadcast candidate is classified related iff it is
link-associated or some whitespace-delimited lowercase token of the
primary's name occurs as a substring of the lowercased candidate name; the
claim's concrete example (`"Alpha News"`, `"Alpha Chat"` against primary
`"Alpha"`) is classified related. -/
theorem relatedClassification_amended :
    (∀ (dialogs : List Cand) (baseName : String),
      findRelatedChannels dialogs baseName
        = dialogs.filter fun c => c.broadcast && amendedRelated c baseName) ∧
    findRelatedChannels
        [⟨"Alpha News", true, false⟩, ⟨"Alpha Chat", true, false⟩] "Alpha"
      = [⟨"Alpha News", true, false⟩, ⟨"Alpha Chat", true, false⟩] := by
  constructor
  · intro dialogs baseName
    unfold findRelatedChannels amendedRelated nameTokens
    exact findRelatedAux_eq_filter _ dialogs
  · decide

/-! ## C4 — retry budget and rate limits -/

/-- An attempt schedule that is rate-limited on the first three attempts and
would succeed from the fourth on. -/
def floodOracle : Nat → DlOutcome := fun a => if a < 3 then .floodWait 3 else .ok

theorem exists_shift {α : Type} (f : Nat → α) (v : α) (a n : Nat) (h : f a ≠ v) :
    (∃ j, j < n ∧ f (a + 1 + j) = v) ↔ ∃ j, j < n + 1 ∧ f (a + j) = v := by
  constructor
  · rintro ⟨j, hj, hja⟩
    refine ⟨j + 1, Nat.succ_lt_succ hj, ?_⟩
    rwa [show a + (j + 1) = a + 1 + j by omega]
  · rintro ⟨j, hj, hja⟩
    cases j with
    | zero => exact absurd (by simpa using hja) h
    | succ j' =>
      refine ⟨j', Nat.lt_of_succ_lt_succ hj, ?_⟩
      rwa [show a + 1 + j' = a + (j' + 1) by omega]

theorem dlAux_attempts (oracle : Nat → DlOutcome) (mr rd : Nat) :
    ∀ rem a, (dlAux oracle mr rd rem a).attemptsUsed ≤ rem := by
  intro rem
  induction rem with
  | zero => intro a; simp [dlAux]
  | succ n ih =>
    intro a
    cases h : oracle a <;> simp only [dlAux, h] <;>
      first
      | omega
      | exact Nat.succ_le_succ (ih (a + 1))

theorem dlAux_ok_iff (oracle : Nat → DlOutcome) (mr rd : Nat) :
    ∀ rem a, (dlAux oracle mr rd rem a).ok = true ↔ ∃ j, j < rem ∧ oracle (a + j) = .ok := by
  intro rem
  induction rem with
  | zero => intro a; simp [dlAux]
  | succ n ih =>
    intro a
    cases h : oracle a with
    | ok =>
      simp only [dlAux, h]
      constructor
      · intro _; exact ⟨0, Nat.succ_pos n, by simpa using h⟩
      · intro _; trivial
    | floodWait w =>
      simp only [dlAux, h]
      rw [ih (a + 1)]
      exact exists_shift oracle .ok a n (by simp [h])
    | fileRefExpired =>
      simp only [dlAux, h]
      rw [ih (a + 1)]
      exact exists_shift oracle .ok a n (by simp [h])
    | corrupt =>
      simp only [dlAux, h]
      rw [ih (a + 1)]
      exact exists_shift oracle .ok a n (by simp [h])
    | noneFile =>
      simp only [dlAux, h]
      rw [ih (a + 1)]
      exact exists_shift oracle .ok a n (by simp [h])
    | timeout =>
      simp only [dlAux, h]
      rw [ih (a + 1)]
      exact exists_shift oracle .ok a n (by simp [h])
    | genericError =>
      simp only [dlAux, h]
      rw [ih (a + 1)]
      exact exists_shift oracle .ok a n (by simp [h])

theorem dlAux_floodSleep (oracle : Nat → DlOutcome) (mr rd : Nat) :
    ∀ rem a j w, j < rem → (∀ t, t < j → oracle (a + t) ≠ .ok) →
      oracle (a + j) = .floodWait w →
      (a + j, w) ∈ (dlAux oracle mr rd rem a).sleeps := by
  intro rem
  induction rem with
  | zero => intro a j w hj; omega
  | succ n ih =>
    intro a j w hj hpre hfw
    cases j with
    | zero =>
      simp only [Nat.add_zero] at hfw
      simp [dlAux, hfw]
    | succ j' =>
      have h0 : oracle a ≠ .ok := by
        have := hpre 0 (Nat.succ_pos j')
        simpa using this
      have hmem : (a + 1 + j', w) ∈ (dlAux oracle mr rd n (a + 1)).sleeps := by
        refine ih (a + 1) j' w (Nat.lt_of_succ_lt_succ hj) ?_ ?_
        · intro t ht
          have := hpre (t + 1) (Nat.succ_lt_succ ht)
          rwa [show a + (t + 1) = a + 1 + t by omega] at this
        · rwa [show a + 1 + j' = a + (j' + 1) by omega]
      have hrw : a + (j' + 1) = a + 1 + j' := by omega
      rw [hrw]
      cases h : oracle a with
      | ok => exact absurd h h0
      | floodWait w' =>
        simp only [dlAux, h]
        exact List.mem_cons_of_mem _ hmem
      | fileRefExpired =>
        simp only [dlAux, h]
        exact List.mem_cons_of_mem _ hmem
      | corrupt =>
        simp only [dlAux, h]
        exact hmem
      | noneFile =>
        simp only [dlAux, h]
        exact List.mem_append.mpr (Or.inr hmem)
      | timeout =>
        simp only [dlAux, h]
        exact List.mem_append.mpr (Or.inr hmem)
      | genericError =>
        simp only [dlAux, h]
        exact List.mem_append.mpr (Or.inr hmem)

theorem upAux_attempts (oracle : Nat → UpOutcome) (mr rd : Nat) (rl : Option Nat) :
    ∀ rem a, (upAux oracle mr rd rl rem a).attemptsUsed ≤ rem := by
  intro rem
  induction rem with
  | zero => intro a; simp [upAux]
  | succ n ih =>
    intro a
    cases h : oracle a <;> simp only [upAux, h] <;>
      first
      | omega
      | exact Nat.succ_le_succ (ih (a + 1))

theorem upAux_ok_iff (oracle : Nat → UpOutcome) (mr rd : Nat) (rl : Option Nat) :
    ∀ rem a, (upAux oracle mr rd rl rem a).ok = true ↔ ∃ j, j < rem ∧ oracle (a + j) = .ok := by
  intro rem
  induction rem with
  | zero => intro a; simp [upAux]
  | succ n ih =>
    intro a
    cases h : oracle a with
    | ok =>
      simp only [upAux, h]
      constructor
      · intro _; exact ⟨0, Nat.succ_pos n, by simpa using h⟩
      · intro _; trivial
    | floodWait w =>
      simp only [upAux, h]
      rw [ih (a + 1)]
      exact exists_shift oracle .ok a n (by simp [h])
    | genericError =>
      simp only [upAux, h]
      rw [ih (a + 1)]
      exact exists_shift oracle .ok a n (by simp [h])

theorem upAux_floodSleep (oracle : Nat → UpOutcome) (mr rd : Nat) (rl : Option Nat) :
    ∀ rem a j w, j < rem → (∀ t, t < j → oracle (a + t) ≠ .ok) →
      oracle (a + j) = .floodWait w →
      (a + j, w) ∈ (upAux oracle mr rd rl rem a).sleeps := by
  intro rem
  induction rem with
  | zero => intro a j w hj; omega
  | succ n ih =>
    intro a j w hj hpre hfw
    cases j with
    | zero =>
      simp only [Nat.add_zero] at hfw
      simp [upAux, hfw]
    | succ j' =>
      have h0 : oracle a ≠ .ok := by
        have := hpre 0 (Nat.succ_pos j')
        simpa using this
      have hmem : (a + 1 + j', w) ∈ (upAux oracle mr rd rl n (a + 1)).sleeps := by
        refine ih (a + 1) j' w (Nat.lt_of_succ_lt_succ hj) ?_ ?_
        · intro t ht
          have := hpre (t + 1) (Nat.succ_lt_succ ht)
          rwa [show a + (t + 1) = a + 1 + t by omega] at this
        · rwa [show a + 1 + j' = a + (j' + 1) by omega]
      have hrw : a + (j' + 1) = a + 1 + j' := by omega
      rw [hrw]
      cases h : oracle a with
      | ok => exact absurd h h0
      | floodWait w' =>
        simp only [upAux, h]
        exact List.mem_cons_of_mem _ hmem
      | genericError =>
        simp only [upAux, h]
        exact List.mem_append.mpr (Or.inr hmem)

/-- C4 counterexample: with `max_retries = 3` and a rate-limit signal on each
of the first three attempts, the download loop gives up (returns failure
after exactly 3 attempts, sleeping the server-specified 3 seconds each
time) even though attempt 3 would have succeeded — rate-limited retries
are counted against the attempt budget, so the claimed unbounded patience
for this failure class is false. -/
theorem rateLimit_counted_counterexample :
    downloadMediaWithRetry floodOracle 3 1
      = ⟨false, [(0, 3), (1, 3), (2, 3)], 3⟩ ∧
    floodOracle 3 = .ok := by
  refine ⟨by decide, by decide⟩

/-- C4 amended: on a rate-limit signal both retry loops sleep exactly the
server-specified duration and then retry, but such retries are counted
against the `max_retries` budget exactly like timeouts and generic
transient errors: at most `max_retries` attempts are ever made, and the
operation succeeds iff some attempt within the budget succeeds. -/
theorem retry_rateLimited_amended :
    (∀ (oracle : Nat → DlOutcome) (mr rd : Nat),
      (downloadMediaWithRetry oracle mr rd).attemptsUsed ≤ mr ∧
      ((downloadMediaWithRetry oracle mr rd).ok = true ↔ ∃ j, j < mr ∧ oracle j = .ok) ∧
      (∀ a w, a < mr → (∀ t, t < a → oracle t ≠ .ok) → oracle a = .floodWait w →
        (a, w) ∈ (downloadMediaWithRetry oracle mr rd).sleeps)) ∧
    (∀ (oracle : Nat → UpOutcome) (mr rd : Nat) (rl : Option Nat),
      (uploadMediaWithRetry oracle mr rd rl).attemptsUsed ≤ mr ∧
      ((uploadMediaWithRetry oracle mr rd rl).ok = true ↔ ∃ j, j < mr ∧ oracle j = .ok) ∧
      (∀ a w, a < mr → (∀ t, t < a → oracle t ≠ .ok) → oracle a = .floodWait w →
        (a, w) ∈ (uploadMediaWithRetry oracle mr rd rl).sleeps)) := by
  constructor
  · intro oracle mr rd
    refine ⟨dlAux_attempts oracle mr rd mr 0, ?_, ?_⟩
    · rw [downloadMediaWithRetry, dlAux_ok_iff oracle mr rd mr 0]
      simp
    · intro a w ha hpre hfw
      have := dlAux_floodSleep oracle mr rd mr 0 a w ha
        (by intro t ht; simpa using hpre t ht) (by simpa using hfw)
      simpa [downloadMediaWithRetry] using this
  · intro oracle mr rd rl
    refine ⟨upAux_attempts oracle mr rd rl mr 0, ?_, ?_⟩
    · rw [uploadMediaWithRetry, upAux_ok_iff oracle mr rd rl mr 0]
      simp
    · intro a w ha hpre hfw
      have := upAux_floodSleep oracle mr rd rl mr 0 a w ha
        (by intro t ht; simpa using hpre t ht) (by simpa using hfw)
      simpa [uploadMediaWithRetry] using this

/-- Witness for the amended C4 theorem at a concrete schedule: the first
attempt of `floodOracle` is rate-limited, so the loop records a sleep of
exactly the specified 3 seconds at attempt 0. -/
theorem retry_rateLimited_amended_witness :
    (0, 3) ∈ (downloadMediaWithRetry floodOracle 3 1).sleeps :=
  (retry_rateLimited_amended.1 floodOracle 3 1).2.2 0 3 (by decide)
    (fun t ht => absurd ht (Nat.not_lt_zero t)) (by decide)

/-! ## C3 — protected media handling -/

/-- C3: if the source is protected, an item with media is sent in the
complete path as exactly one destination message whose content is the
synthesized description (type, duration lines for a video, size, caption);
no download is attempted and the outcome is marked `media_skipped`. -/
theorem protected_media_description_send (m : Message) (md : Media)
    (dlResult : Option String) (hm : m.media = some md) :
    (sendMessageWithMediaDownload m true true dlResult).2
      = [Ev.sendMsg (protectedMediaDescr md m.text)] ∧
    (sendMessageWithMediaDownload m true true dlResult).1.sent = true ∧
    (sendMessageWithMediaDownload m true true dlResult).1.mediaSkipped = true ∧
    (sendMessageWithMediaDownload m true true dlResult).1.mediaDownloaded = false ∧
    Ev.download ∉ (sendMessageWithMediaDownload m true true dlResult).2 := by
  rcases m with ⟨t, mm⟩
  simp only [Message.media] at hm
  subst hm
  simp [sendMessageWithMediaDownload]

/-- A protected video document used as concrete input. -/
def protMedia : Media :=
  ⟨"MessageMediaDocument", false, none, false,
    some ⟨some "video/mp4", some 3145728, [⟨some 125⟩]⟩⟩

/-- A captioned message carrying `protMedia`. -/
def protMsg : Message := ⟨"cap", some protMedia⟩

/-- Witness for C3 at a concrete protected video message. -/
theorem protected_media_description_send_witness :
    (sendMessageWithMediaDownload protMsg true true (some "f")).2
      = [Ev.sendMsg (protectedMediaDescr protMedia "cap")] :=
  (protected_media_description_send protMsg protMedia (some "f") rfl).1

/-! ## C5 — link-preview handling -/

/-- A link-preview media payload. -/
def webMedia : Media := ⟨"MessageMediaWebPage", true, some ⟨"T", "D", "U"⟩, false, none⟩

/-- A message carrying a link preview. -/
def webMsg : Message := ⟨"hello", some webMedia⟩

/-- C5 counterexample: in the complete path
(`_send_message_with_media_download`, which has no webpage case) a
link-preview item of a protected source is handled by the protected-media
description strategy, not sent as the formatted webpage composition. -/
theorem webpage_protected_counterexample :
    (sendMessageWithMediaDownload webMsg true true none).2
      = [Ev.sendMsg
          "🔒 CONTEÚDO PROTEGIDO (não é possível baixar)\n\n\n💬 Legenda/Texto:\nhello"] ∧
    formatWebpageMessage webMsg = "hello\n\n🔗 Link:\n📄 T\n📋 D\n🌐 U" ∧
    (sendMessageWithMediaDownload webMsg true true none).2
      ≠ [Ev.sendMsg (formatWebpageMessage webMsg)] := by
  refine ⟨by decide, by decide, by decide⟩

/-- C5 amended: the basic per-item sender (`_send_single_message`) sends a
link-preview item as the formatted text composition whether or not the
source is protected (and does not mark it media-skipped), while the
complete path (`_send_message_with_media_download`) treats it as ordinary
media: under protection it is handled by the protected-media description
strategy. -/
theorem webpage_paths_amended (m : Message) (md : Media) (p : Bool)
    (dlResult : Option String) (hm : m.media = some md)
    (hw : md.hasWebpageAttr = true) :
    (sendSingleMessage m p).2 = [Ev.sendMsg (formatWebpageMessage m)] ∧
    (sendSingleMessage m p).1.sent = true ∧
    (sendSingleMessage m p).1.mediaSkipped = false ∧
    (sendMessageWithMediaDownload m true true dlResult).2
      = [Ev.sendMsg (protectedMediaDescr md m.text)] := by
  rcases m with ⟨t, mm⟩
  simp only [Message.media] at hm
  subst hm
  cases p <;> simp [sendSingleMessage, sendMessageWithMediaDownload, hw]

/-- Witness for the amended C5 theorem at a concrete link-preview message. -/
theorem webpage_paths_amended_witness :
    (sendSingleMessage webMsg true).2 = [Ev.sendMsg (formatWebpageMessage webMsg)] :=
  (webpage_paths_amended webMsg webMedia true none rfl rfl).1

/-! ## Loop lemmas for C1 / C2 / C8 -/

theorem mem_ite_singleton {α : Type} {x q : α} {c : Prop} [Decidable c]
    (h : q ∈ if c then [x] else []) : q = x := by
  by_cases hc : c
  · rw [if_pos hc] at h
    simpa using h
  · rw [if_neg hc] at h
    simp at h

theorem save_not_in_send (m : Message) (p d : Bool) (dr : Option String) (v : Nat) :
    Ev.save v ∉ (sendMessageWithMediaDownload m p d dr).2 := by
  rcases m with ⟨t, _ | md⟩ <;> cases p <;> cases d <;> cases dr <;>
    simp only [sendMessageWithMediaDownload] <;>
    (repeat' split) <;> simp

theorem send_sent_of_content (m : Message) (p : Bool) (dr : Option String)
    (h : m.text ≠ "" ∨ m.media.isSome = true) :
    (sendMessageWithMediaDownload m p true dr).1.sent = true := by
  rcases m with ⟨t, _ | md⟩
  · rcases h with h | h
    · simp [sendMessageWithMediaDownload, h]
    · simp [Message.media] at h
  · cases p <;> cases dr <;> simp [sendMessageWithMediaDownload]

theorem processLoop_indices (P D C : Bool) (l : List (Message × Option String)) :
    ∀ (i copied dl sk : Nat),
      ∀ q ∈ (processLoop P D C l i copied dl sk).events, i ≤ q.1 ∧ q.1 < i + l.length := by
  induction l with
  | nil =>
    intro i copied dl sk q hq
    simp [processLoop] at hq
  | cons x rest ih =>
    intro i copied dl sk q hq
    simp only [processLoop, List.mem_append] at hq
    rcases hq with ((h1 | h2) | h3) | h4
    · rcases List.mem_map.mp h1 with ⟨e, _, rfl⟩
      simp only [List.length_cons]
      omega
    · have := mem_ite_singleton h2
      subst this
      simp only [List.length_cons]
      omega
    · have := mem_ite_singleton h3
      subst this
      simp only [List.length_cons]
      omega
    · have := ih (i + 1) _ _ _ q h4
      simp only [List.length_cons]
      omega

theorem processLoop_save_sound (P C : Bool) (l : List (Message × Option String)) :
    ∀ (i dl sk : Nat),
      (∀ x ∈ l, x.1.text ≠ "" ∨ x.1.media.isSome = true) →
      ∀ j v, (j, Ev.save v) ∈ (processLoop P true C l i i dl sk).events →
        v = j + 1 ∧ (j + 1) % 10 = 0 := by
  induction l with
  | nil =>
    intro i dl sk _ j v h
    simp [processLoop] at h
  | cons x rest ih =>
    intro i dl sk hall j v hmem
    have hsent : (sendMessageWithMediaDownload x.1 P true x.2).1.sent = true :=
      send_sent_of_content _ _ _ (hall x (List.mem_cons_self _ _))
    simp only [processLoop, hsent, if_pos, List.mem_append] at hmem
    rcases hmem with ((h1 | h2) | h3) | h4
    · rcases List.mem_map.mp h1 with ⟨e, he, heq⟩
      have : e = Ev.save v := congrArg Prod.snd heq
      subst this
      exact absurd he (save_not_in_send _ _ _ _ _)
    · by_cases hc : (C = true ∧ (i + 1) % 10 = 0)
      · rw [if_pos hc] at h2
        have h5 := List.mem_singleton.mp h2
        have hj : j = i := congrArg Prod.fst h5
        have hv : Ev.save v = Ev.save (i + 1) := congrArg Prod.snd h5
        subst hj
        cases hv
        exact ⟨rfl, hc.2⟩
      · rw [if_neg hc] at h2
        simp at h2
    · have h5 := mem_ite_singleton h3
      have : Ev.save v = Ev.throttle := congrArg Prod.snd h5
      cases this
    · exact ih (i + 1) _ _
        (fun y hy => hall y (List.mem_cons_of_mem _ hy)) j v h4

theorem processLoop_save_complete (P : Bool) (l : List (Message × Option String)) :
    ∀ (i dl sk : Nat),
      (∀ x ∈ l, x.1.text ≠ "" ∨ x.1.media.isSome = true) →
      ∀ j, i ≤ j → j < i + l.length → (j + 1) % 10 = 0 →
        (j, Ev.save (j + 1)) ∈ (processLoop P true true l i i dl sk).events := by
  induction l with
  | nil =>
    intro i dl sk _ j h1 h2 _
    simp only [List.length_nil] at h2
    exact absurd h1 (by omega)
  | cons x rest ih =>
    intro i dl sk hall j hij hjlen hmod
    have hsent : (sendMessageWithMediaDownload x.1 P true x.2).1.sent = true :=
      send_sent_of_content _ _ _ (hall x (List.mem_cons_self _ _))
    simp only [processLoop, hsent, if_pos, List.mem_append]
    by_cases hji : j = i
    · subst hji
      refine Or.inl (Or.inl (Or.inr ?_))
      rw [if_pos ⟨by trivial, hmod⟩]
      simp
    · refine Or.inr ?_
      refine ih (i + 1) _ _
        (fun y hy => hall y (List.mem_cons_of_mem _ hy)) j (by omega) ?_ hmod
      simp only [List.length_cons] at hjlen
      omega

theorem applySaves_isSome (evs : List (Nat × Ev)) :
    ∀ v : Nat, (applySaves (some v) evs).isSome = true := by
  induction evs with
  | nil => intro v; rfl
  | cons q rest ih =>
    intro v
    rcases q with ⟨n, e⟩
    cases e <;> simp only [applySaves] <;> exact ih _

theorem delete_not_in_items (l : List (Nat × Ev)) :
    CEv.delete ∉ l.map fun q => CEv.item q.1 q.2 := by
  simp [List.mem_map]

theorem protQuery_not_in_items (l : List (Nat × Ev)) :
    CEv.protQuery ∉ l.map fun q => CEv.item q.1 q.2 := by
  simp [List.mem_map]

/-! ## C1 — resume skips items before the checkpoint -/

/-- C1: a migration resumed with a loaded checkpoint whose processed count
is `k` runs its transfer loop only over indices `k ≤ i < length` of the
chronologically ordered item list: every per-item event of the run — in
particular every destination send — carries an index `≥ k`, so no item
with sequence index `< k` is sent again. -/
theorem resume_skips_before_checkpoint (msgs : List (Message × Option String))
    (k : Nat) (queryRes : Option (Option Bool)) (dlFlag deleteOk : Bool)
    (i : Nat) (e : Ev)
    (hmem : CEv.item i e ∈
      (cloneChannelComplete msgs true (some k) true queryRes dlFlag deleteOk).events) :
    k ≤ i ∧ i < msgs.length := by
  simp only [cloneChannelComplete, true_and, and_true, Option.getD_some, if_true,
    List.mem_cons, List.mem_append] at hmem
  rcases hmem with (h0 | h1) | h2
  · cases h0
  · rcases List.mem_map.mp h1 with ⟨q, hq, heq⟩
    have hbound := processLoop_indices (checkContentProtection queryRes) dlFlag true
      (msgs.drop k) k k 0 0 q hq
    have hqi : q.1 = i := by
      cases heq
      rfl
    rw [hqi, List.length_drop] at hbound
    omega
  · have h3 := mem_ite_singleton h2
    cases h3

/-- A three-item all-text list used as concrete input. -/
def msgsW : List (Message × Option String) :=
  [(⟨"m0", none⟩, none), (⟨"m1", none⟩, none), (⟨"m2", none⟩, none)]

/-- Witness for C1: resuming `msgsW` from checkpoint count 1, the send of
`"m1"` is a loop event, and its index satisfies the bounds. -/
theorem resume_skips_before_checkpoint_witness :
    1 ≤ 1 ∧ 1 < msgsW.length :=
  resume_skips_before_checkpoint msgsW 1 none true true 1 (Ev.sendMsg "m1") (by decide)

/-! ## C2 — checkpoint cadence and cleanup -/

/-- C2: in a resumable complete migration over items that all send (every
item has text or media, the invariant `_collect_messages` establishes),
every persisted checkpoint value equals the number of items processed so
far and is written exactly when that number is a multiple of 10; after the
full item stream is consumed the checkpoint file is deleted (it is absent
whenever the delete succeeds), deletion failure still leaves the migration
successful, and the deletion is the last event of the run. -/
theorem checkpoint_cadence_and_cleanup (msgs : List (Message × Option String))
    (k : Nat) (queryRes : Option (Option Bool)) (deleteOk : Bool)
    (hall : ∀ x ∈ msgs, x.1.text ≠ "" ∨ x.1.media.isSome = true)
    (out : CloneOut)
    (hout : out = cloneChannelComplete msgs true (some k) true queryRes true deleteOk) :
    (∀ i v, CEv.item i (Ev.save v) ∈ out.events → v = i + 1 ∧ (i + 1) % 10 = 0) ∧
    (∀ i, k ≤ i → i < msgs.length → (i + 1) % 10 = 0 →
      CEv.item i (Ev.save (i + 1)) ∈ out.events) ∧
    (deleteOk = true → out.ckptFile = none) ∧
    out.success = true ∧
    out.events.getLast? = some CEv.delete := by
  subst hout
  have hallD : ∀ x ∈ msgs.drop k, x.1.text ≠ "" ∨ x.1.media.isSome = true :=
    fun x hx => hall x (List.drop_subset k msgs hx)
  have hsome : (applySaves (some k)
      (processLoop (checkContentProtection queryRes) true true
        (msgs.drop k) k k 0 0).events).isSome = true :=
    applySaves_isSome _ k
  refine ⟨?_, ?_, ?_, ?_, ?_⟩
  · intro i v hmem
    simp only [cloneChannelComplete, true_and, and_true, Option.getD_some, if_true,
      List.mem_cons, List.mem_append] at hmem
    rcases hmem with (h0 | h1) | h2
    · cases h0
    · rcases List.mem_map.mp h1 with ⟨q, hq, heq⟩
      have hqi : q = (i, Ev.save v) := by
        rcases q with ⟨q1, q2⟩
        cases heq
        rfl
      subst hqi
      exact processLoop_save_sound _ _ _ k 0 0 hallD i v hq
    · have h3 := mem_ite_singleton h2
      cases h3
  · intro i h1 h2 h3
    simp only [cloneChannelComplete, true_and, and_true, Option.getD_some, if_true,
      List.mem_cons, List.mem_append]
    refine Or.inl (Or.inr ?_)
    refine List.mem_map.mpr ⟨(i, Ev.save (i + 1)), ?_, rfl⟩
    refine processLoop_save_complete _ _ k 0 0 hallD i h1 ?_ h3
    rw [List.length_drop]
    omega
  · intro hd
    subst hd
    simp [cloneChannelComplete, hsome]
  · rfl
  · simp only [cloneChannelComplete, true_and, and_true, Option.getD_some, if_true]
    rw [if_pos hsome]
    exact List.getLast?_concat _

/-- A twelve-item all-text list used as concrete input. -/
def msgsC2 : List (Message × Option String) :=
  [(⟨"t0", none⟩, none), (⟨"t1", none⟩, none), (⟨"t2", none⟩, none),
   (⟨"t3", none⟩, none), (⟨"t4", none⟩, none), (⟨"t5", none⟩, none),
   (⟨"t6", none⟩, none), (⟨"t7", none⟩, none), (⟨"t8", none⟩, none),
   (⟨"t9", none⟩, none), (⟨"t10", none⟩, none), (⟨"t11", none⟩, none)]

/-- Witness for C2: a fresh 12-item migration whose deletion succeeds ends
with no checkpoint file. -/
theorem checkpoint_cadence_and_cleanup_witness :
    (cloneChannelComplete msgsC2 true (some 0) true none true true).ckptFile = none :=
  (checkpoint_cadence_and_cleanup msgsC2 0 none true (by decide) _ rfl).2.2.1 rfl

/-! ## C8 — protection detection -/

/-- C8: a complete migration queries the protection flag exactly once (one
`protQuery` event per run); the detector returns the `noforwards` flag when
present and `false` on query failure or flag absence; and the run's whole
behaviour depends on the query result only through that single boolean, so
protection applies uniformly to every item with no per-item
re-evaluation. -/
theorem protection_once_uniform :
    (∀ (msgs : List (Message × Option String)) (resumeEnabled : Bool)
        (fileCkpt : Option Nat) (loadedOk : Bool) (queryRes : Option (Option Bool))
        (dlFlag deleteOk : Bool),
      ((cloneChannelComplete msgs resumeEnabled fileCkpt loadedOk queryRes
          dlFlag deleteOk).events.count CEv.protQuery) = 1) ∧
    checkContentProtection none = false ∧
    checkContentProtection (some none) = false ∧
    (∀ b, checkContentProtection (some (some b)) = b) ∧
    (∀ (msgs : List (Message × Option String)) (resumeEnabled : Bool)
        (fileCkpt : Option Nat) (loadedOk : Bool)
        (q1 q2 : Option (Option Bool)) (dlFlag deleteOk : Bool),
      checkContentProtection q1 = checkContentProtection q2 →
      (cloneChannelComplete msgs resumeEnabled fileCkpt loadedOk q1 dlFlag deleteOk).events
        = (cloneChannelComplete msgs resumeEnabled fileCkpt loadedOk q2 dlFlag deleteOk).events) := by
  refine ⟨?_, rfl, rfl, fun b => rfl, ?_⟩
  · intro msgs resumeEnabled fileCkpt loadedOk queryRes dlFlag deleteOk
    simp only [cloneChannelComplete]
    rw [List.count_append, List.count_cons_self,
      List.count_eq_zero.mpr (protQuery_not_in_items _)]
    split <;> split <;> decide
  · intro msgs resumeEnabled fileCkpt loadedOk q1 q2 dlFlag deleteOk h
    simp only [cloneChannelComplete]
    rw [h]

/-- Witness for C8: two query results that both decode to "not protected"
(a failing query and a reply without the flag) yield identical runs. -/
theorem protection_once_uniform_witness :
    (cloneChannelComplete msgsW true none true none true true).events
      = (cloneChannelComplete msgsW true none true (some none) true true).events :=
  protection_once_uniform.2.2.2.2 msgsW true none true none (some none) true true rfl

/-! ## C9 — bulk-download progress -/

theorem bumpSave_lastId (st : DlState) (n : Nat) :
    (bumpSave st n).lastId = max st.lastId n := by
  simp only [bumpSave]
  split <;> rfl

/-- Invariant of the downloader state: the saved values are nondecreasing
and the last saved value is at most the current `last_id`. -/
def SavesInv (st : DlState) : Prop :=
  List.Chain' (· ≤ ·) st.saves ∧ ∀ x, st.saves.getLast? = some x → x ≤ st.lastId

theorem bumpSave_inv (st : DlState) (n : Nat) (h : SavesInv st) :
    SavesInv (bumpSave st n) := by
  rcases h with ⟨hchain, hlast⟩
  simp only [bumpSave]
  split
  · constructor
    · refine List.Chain'.append hchain (List.chain'_singleton _) ?_
      intro x hx y hy
      rw [Option.mem_def] at hx
      have hy' : max st.lastId n = y := by simpa using hy
      cases hy'
      exact le_trans (hlast x hx) (le_max_left _ _)
    · intro x hx
      simp only at hx
      rw [List.getLast?_concat] at hx
      cases hx
      exact le_refl _
  · constructor
    · exact hchain
    · intro x hx
      exact le_trans (hlast x hx) (le_max_left _ _)

theorem dlLoop_inv (wI wV : Bool) (l : List (DMsg × DlRes)) :
    ∀ st, SavesInv st → SavesInv (dlLoop wI wV l st) := by
  induction l with
  | nil => intro st h; exact h
  | cons x rest ih =>
    intro st h
    rcases x with ⟨m, res⟩
    simp only [dlLoop]
    split
    · exact ih _ (bumpSave_inv _ _ h)
    · split
      · exact ih _ h
      · split
        · exact ih _ h
        · cases res <;> exact ih _ (bumpSave_inv _ _ h)

theorem dlLoop_lastId (wI wV : Bool) (l : List (DMsg × DlRes)) :
    ∀ st, (dlLoop wI wV l st).lastId
      = l.foldl
          (fun acc m => if countedMsg wI wV m.1 then max acc m.1.id else acc)
          st.lastId := by
  induction l with
  | nil => intro st; rfl
  | cons x rest ih =>
    intro st
    rcases x with ⟨m, res⟩
    by_cases h1 : (!m.hasMedia) = true
    · have hc : countedMsg wI wV m = true := by simp [countedMsg, h1]
      simp only [dlLoop, List.foldl]
      rw [if_pos h1, if_pos hc, ih, bumpSave_lastId]
    · by_cases h2 : ((m.isPhoto && !wI) || (msgIsVideo m && !wV)) = true
      · have hc : ¬(countedMsg wI wV m = true) := by simp [countedMsg, h1, h2]
        simp only [dlLoop, List.foldl]
        rw [if_neg h1, if_pos h2, if_neg hc, ih]
      · by_cases h3 : (!m.isPhoto && !msgIsVideo m) = true
        · have hc : ¬(countedMsg wI wV m = true) := by
            simp [countedMsg, h1, h2, h3]
          simp only [dlLoop, List.foldl]
          rw [if_neg h1, if_neg h2, if_pos h3, if_neg hc, ih]
        · have hc : countedMsg wI wV m = true := by
            simp [countedMsg, h1, h2, h3]
          simp only [dlLoop, List.foldl]
          rw [if_neg h1, if_neg h2, if_neg h3, if_pos hc]
          cases res <;> rw [ih, bumpSave_lastId]

theorem dlLoop_saves (wI wV : Bool) (l : List (DMsg × DlRes)) :
    ∀ st, (dlLoop wI wV l st).saves
      = st.saves ++ specSavesAux wI wV l st.lastId st.sinceSave := by
  induction l with
  | nil => intro st; simp [dlLoop, specSavesAux]
  | cons x rest ih =>
    intro st
    rcases x with ⟨m, res⟩
    by_cases h1 : (!m.hasMedia) = true
    · have hc : countedMsg wI wV m = true := by simp [countedMsg, h1]
      simp only [dlLoop, specSavesAux]
      rw [if_pos h1, if_pos hc, ih]
      by_cases h50 : 50 ≤ st.sinceSave + 1
      · simp only [bumpSave]
        rw [if_pos h50, if_pos h50]
        simp
      · simp only [bumpSave]
        rw [if_neg h50, if_neg h50]
    · by_cases h2 : ((m.isPhoto && !wI) || (msgIsVideo m && !wV)) = true
      · have hc : ¬(countedMsg wI wV m = true) := by simp [countedMsg, h1, h2]
        simp only [dlLoop, specSavesAux]
        rw [if_neg h1, if_pos h2, if_neg hc, ih]
      · by_cases h3 : (!m.isPhoto && !msgIsVideo m) = true
        · have hc : ¬(countedMsg wI wV m = true) := by
            simp [countedMsg, h1, h2, h3]
          simp only [dlLoop, specSavesAux]
          rw [if_neg h1, if_neg h2, if_pos h3, if_neg hc, ih]
        · have hc : countedMsg wI wV m = true := by
            simp [countedMsg, h1, h2, h3]
          simp only [dlLoop, specSavesAux]
          rw [if_neg h1, if_neg h2, if_neg h3, if_pos hc]
          by_cases h50 : 50 ≤ st.sinceSave + 1
          · cases res <;>
              (rw [ih]; simp only [bumpSave]; rw [if_pos h50, if_pos h50]; simp)
          · cases res <;>
              (rw [ih]; simp only [bumpSave]; rw [if_neg h50, if_neg h50])

theorem foldl_counted_ge (wI wV : Bool) (l : List (DMsg × DlRes)) :
    ∀ acc : Nat,
      acc ≤ l.foldl
        (fun acc m => if countedMsg wI wV m.1 then max acc m.1.id else acc) acc := by
  induction l with
  | nil => intro acc; exact le_refl _
  | cons x rest ih =>
    intro acc
    simp only [List.foldl]
    refine le_trans ?_ (ih _)
    split
    · exact le_max_left _ _
    · exact le_refl _

/-- The two-message run used against the claim: message 1 has no media,
message 2 is a video while only images are wanted. -/
def msgs9 : List (DMsg × DlRes) :=
  [(⟨1, false, false, false, false⟩, .path), (⟨2, true, false, true, false⟩, .path)]

/-- C9 counterexample: after inspecting both messages of `msgs9` (videos
filtered out), the stored progress is `last_id = 1`, not the highest
inspected sequence number 2 — media-type-filtered messages advance neither
`last_id` nor the save counter, contradicting the claim's "highest item
fully inspected / every 50 inspected items" description. -/
theorem downloader_lastid_counterexample :
    (downloadDialogMedia msgs9 true false 0).saves = [1] ∧
    (downloadDialogMedia msgs9 true false 0).lastId = 1 ∧
    claimHighestInspected msgs9 0 = 2 ∧
    (downloadDialogMedia msgs9 true false 0).lastId ≠ claimHighestInspected msgs9 0 ∧
    jsonProgress (downloadDialogMedia msgs9 true false 0).lastId
      = "\x7b\"last_id\": 1\x7d" := by
  refine ⟨by decide, by decide, by decide, by decide, by decide⟩

/-- C9 amended: over any run, the saved values are exactly those of the
amended description — one save each time 50 processed (non-filtered)
messages have accumulated since the last save, holding the running highest
processed id, plus the final `_save_progress` of the current `last_id`
(`specSaves`); the sequence of saved values never decreases; the final
stored id is the highest id among the processed messages — those that are
media-free, download-attempted, or erroring — and never drops below the
initial id loaded from the progress file. -/
theorem downloader_progress_amended (msgs : List (DMsg × DlRes))
    (wI wV : Bool) (initLastId : Nat) :
    (downloadDialogMedia msgs wI wV initLastId).saves
      = specSaves wI wV msgs initLastId ∧
    (downloadDialogMedia msgs wI wV initLastId).saves.getLast?
      = some (downloadDialogMedia msgs wI wV initLastId).lastId ∧
    List.Chain' (· ≤ ·) (downloadDialogMedia msgs wI wV initLastId).saves ∧
    (downloadDialogMedia msgs wI wV initLastId).lastId
      = amendedHighest wI wV msgs initLastId ∧
    initLastId ≤ (downloadDialogMedia msgs wI wV initLastId).lastId := by
  have hinv : SavesInv (dlLoop wI wV msgs ⟨initLastId, 0, [], 0, 0, 0, 0⟩) := by
    refine dlLoop_inv wI wV msgs _ ⟨List.chain'_nil, ?_⟩
    intro x hx
    cases hx
  have hlast : (dlLoop wI wV msgs ⟨initLastId, 0, [], 0, 0, 0, 0⟩).lastId
      = amendedHighest wI wV msgs initLastId := by
    rw [dlLoop_lastId]
    rfl
  refine ⟨?_, ?_, ?_, ?_, ?_⟩
  · simp only [downloadDialogMedia, specSaves]
    rw [dlLoop_saves, hlast]
    simp
  · simp only [downloadDialogMedia]
    exact List.getLast?_concat _
  · simp only [downloadDialogMedia]
    rcases hinv with ⟨hchain, hl⟩
    refine List.Chain'.append hchain (List.chain'_singleton _) ?_
    intro x hx y hy
    rw [Option.mem_def] at hx
    have hy' : (dlLoop wI wV msgs ⟨initLastId, 0, [], 0, 0, 0, 0⟩).lastId = y := by
      simpa using hy
    cases hy'
    exact hl x hx
  · simp only [downloadDialogMedia]
    exact hlast
  · simp only [downloadDialogMedia]
    rw [hlast]
    exact foldl_counted_ge wI wV msgs initLastId

end TLClone
